import Mathlib

/-!
Shallow embedding of `src/contracts/src/PredictionPoolOracle.sol` (the
settlement engine of the `greener` prediction-pool repository).

Modelling conventions:
* addresses, timestamps and wei amounts are `Nat`;
* the contract's ether balance is an explicit `balance` field; a call's
  `msg.value` is credited to it before the body runs, exactly as the EVM does;
* a Solidity `require` failure, checked-arithmetic panic or failed transfer
  reverts the whole call: an operation returns `Except String Pool`, and a
  failed call leaves the pre-state untouched;
* the entropy provider's fee (`entropy.getFee(providerAddress)`) is modelled
  as a per-pool constant `entropyFee`; the sequence number returned by
  `requestWithCallback` and the oracle readings are inputs of the call;
* an outbound transfer `call{value: v}` succeeds iff the contract balance
  covers `v` (recipients are plain accounts).
-/

inductive SettlementType where
  | Wallet
  | Pyth
  | Chronicle
deriving DecidableEq, Repr

inductive PoolState where
  | Open
  | Closed
  | Resolving
  | Resolved
deriving DecidableEq, Repr

inductive WinnerType where
  | Proportional
  | Single
deriving DecidableEq, Repr

/-- `struct PredictionOutcome` of the source. -/
structure PredictionOutcome where
  name : String
  totalBets : Nat
  initialProbability : Nat
  value : Nat
deriving DecidableEq, Repr

/-- The zero value a Solidity storage slot holds before being written. -/
def defaultOutcome : PredictionOutcome := ⟨"", 0, 0, 0⟩

/-- `struct Bettor` of the source: a mapping from outcome index to stake,
plus the claimed flag. -/
structure Bettor where
  bets : Nat → Nat
  claimed : Bool

/-- The mutable storage of contract `PredictionPoolOracle`. -/
structure Pool where
  maxLimit : Nat
  deadline : Nat
  owner : Nat
  paused : Bool
  resolved : Bool
  winningOutcomeIndex : Nat
  settlementType : SettlementType
  state : PoolState
  winnerType : WinnerType
  outcomes : List PredictionOutcome
  bettors : Nat → Bettor
  bettorsPerOutcome : Nat → List Nat
  hasBettorBetOnOutcome : Nat → Nat → Bool
  providerAddress : Nat
  entropySequenceNumber : Nat
  randomNumber : Nat
  entropyFee : Nat
  balance : Nat

/-- The constructor of the contract (storage after deployment).
`1 days` is 86400 seconds. -/
def mkPool (owner maxLimit now durationInDays : Nat)
    (wt : WinnerType) (st : SettlementType) (provider fee : Nat) : Pool :=
  { maxLimit := maxLimit
    deadline := now + durationInDays * 86400
    owner := owner
    paused := false
    resolved := false
    winningOutcomeIndex := 0
    settlementType := st
    state := PoolState.Open
    winnerType := wt
    outcomes := []
    bettors := fun _ => { bets := fun _ => 0, claimed := false }
    bettorsPerOutcome := fun _ => []
    hasBettorBetOnOutcome := fun _ _ => false
    providerAddress := provider
    entropySequenceNumber := 0
    randomNumber := 0
    entropyFee := fee
    balance := 0 }

/-- `getContractBalance()`: `address(this).balance`. -/
def getContractBalance (p : Pool) : Nat := p.balance

/-- Sum of all outcomes' `totalBets`. -/
def sumTotalBets (p : Pool) : Nat :=
  (p.outcomes.map PredictionOutcome.totalBets).sum

/-- In-place update of `outcomes[i]` (Solidity storage write). -/
def updateAt : List PredictionOutcome → Nat → (PredictionOutcome → PredictionOutcome) →
    List PredictionOutcome
  | [], _, _ => []
  | o :: rest, 0, f => f o :: rest
  | o :: rest, i + 1, f => o :: updateAt rest i f

/-- `addOutcome(_name, _initialProbability, _value)`. -/
def addOutcome (p : Pool) (sender : Nat) (nm : String)
    (initialProbability value : Nat) : Except String Pool :=
  if ¬ sender = p.owner then .error "Not the owner"
  else if ¬ initialProbability ≤ 10000 then
    .error "Probability must be between 0 and 10000."
  else .ok { p with outcomes := p.outcomes ++ [⟨nm, 0, initialProbability, value⟩] }

/-- `removeOutcome(_index)`: swap with the last element, then pop. -/
def removeOutcome (p : Pool) (sender idx : Nat) : Except String Pool :=
  if ¬ sender = p.owner then .error "Not the owner"
  else if ¬ idx < p.outcomes.length then .error "Outcome does not exist."
  else .ok { p with outcomes :=
    (p.outcomes.set idx (p.outcomes.getD (p.outcomes.length - 1) defaultOutcome)).dropLast }

/-- `placeBet(_outcomeIndex)` with `msg.sender`, `msg.value`, `block.timestamp`.
The `poolOpen` modifier lazily writes `state = Closed` when the deadline has
passed, but its `require` then reads the updated state and reverts, undoing
the write: a call passes the modifier iff the pool is Open and before the
deadline, and otherwise reverts leaving the state unchanged. -/
def placeBet (p : Pool) (sender value now idx : Nat) : Except String Pool :=
  if ¬ (p.state = PoolState.Open ∧ now < p.deadline) then
    .error "Pool is not open for betting."
  else if p.paused then .error "Contract is paused."
  else
    let bal := p.balance + value
    if ¬ idx < p.outcomes.length then .error "Invalid outcome."
    else if ¬ 0 < value then .error "Bet amount must be greater than zero."
    else if 0 < p.maxLimit ∧ p.maxLimit < bal then .error "Max limit reached."
    else
      let bettor := p.bettors sender
      let p1 :=
        if ¬ p.hasBettorBetOnOutcome idx sender then
          { p with
            bettorsPerOutcome := fun j =>
              if j = idx then p.bettorsPerOutcome idx ++ [sender]
              else p.bettorsPerOutcome j
            hasBettorBetOnOutcome := fun j a =>
              if j = idx ∧ a = sender then true else p.hasBettorBetOnOutcome j a }
        else p
      .ok { p1 with
        bettors := fun a =>
          if a = sender then
            { bets := fun j => if j = idx then bettor.bets idx + value else bettor.bets j
              claimed := bettor.claimed }
          else p1.bettors a
        outcomes := updateAt p1.outcomes idx
          (fun o => { o with totalBets := o.totalBets + value })
        balance := bal }

/-- `getProbabilities()`. -/
def getProbabilities (p : Pool) : List Nat :=
  let totalBets := getContractBalance p
  p.outcomes.map (fun o =>
    if 0 < totalBets then o.totalBets * 10000 / totalBets else o.initialProbability)

/-- `closeBetting()`. -/
def closeBetting (p : Pool) (sender now : Nat) : Except String Pool :=
  if ¬ sender = p.owner then .error "Not the owner"
  else if ¬ p.state = PoolState.Open then .error "Betting already closed."
  else if now < p.deadline then .error "Deadline not reached yet."
  else .ok { p with state := PoolState.Closed }

/-- `extendDeadline(_daysToAdd)` (guarded by `onlyOwner` and `poolOpen`). -/
def extendDeadline (p : Pool) (sender now daysToAdd : Nat) : Except String Pool :=
  if ¬ sender = p.owner then .error "Not the owner"
  else if ¬ (p.state = PoolState.Open ∧ now < p.deadline) then
    .error "Pool is not open for betting."
  else .ok { p with deadline := p.deadline + daysToAdd * 86400 }

/-- `togglePause()`. -/
def togglePause (p : Pool) (sender : Nat) : Except String Pool :=
  if ¬ sender = p.owner then .error "Not the owner"
  else .ok { p with paused := ¬ p.paused }

/-- `2^256`, the modulus of Solidity's `uint256`. -/
def UINT256 : Nat := 2 ^ 256

/-- `difference` computed for one outcome inside `_getClosestOutcomeIndex`. -/
def absDiff (oracleValue outcomeValue : Nat) : Nat :=
  if oracleValue > outcomeValue then oracleValue - outcomeValue
  else outcomeValue - oracleValue

/-- The loop of `_getClosestOutcomeIndex`, carrying the loop counter `i`,
`closestIndex` and `smallestDifference`. -/
def closestLoop (oracleValue : Nat) :
    List PredictionOutcome → Nat → Nat → Nat → Nat
  | [], _, closestIndex, _ => closestIndex
  | o :: rest, i, closestIndex, smallestDifference =>
    let difference := absDiff oracleValue o.value
    if difference < smallestDifference then
      closestLoop oracleValue rest (i + 1) i difference
    else
      closestLoop oracleValue rest (i + 1) closestIndex smallestDifference

/-- `_getClosestOutcomeIndex(oracleValue)`; `smallestDifference` starts at
`type(uint256).max`. -/
def getClosestOutcomeIndex (outcomes : List PredictionOutcome) (oracleValue : Nat) : Nat :=
  closestLoop oracleValue outcomes 0 0 (UINT256 - 1)

/-- `_toUint256Price(price)`: reinterpret the signed mantissa as `uint256`
(two's complement), then scale by `10 ** |expo|`; checked arithmetic reverts
on overflow. -/
def toUint256Price (priceValue expo : Int) : Except String Nat :=
  let mantissa := (priceValue % (UINT256 : Int)).toNat
  if expo < 0 then
    if UINT256 ≤ 10 ^ (-expo).toNat then .error "arithmetic overflow"
    else
      let m := mantissa * 10 ^ (-expo).toNat
      if UINT256 ≤ m then .error "arithmetic overflow" else .ok m
  else
    if UINT256 ≤ 10 ^ expo.toNat then .error "arithmetic overflow"
    else .ok (mantissa / 10 ^ expo.toNat)

/-- External data consumed by one `resolve` call: the push oracle's quoted
update fee, freshness flag and price, the pull oracle's reading and age, and
the sequence number the entropy provider acknowledges a request with. -/
structure ResolveEnv where
  pythUpdateFee : Nat
  pythFresh : Bool
  pythPrice : Int
  pythExpo : Int
  chronValue : Nat
  chronAge : Nat
  entropySeq : Nat
deriving Repr

/-- `_afterResolve()`: Proportional finalises immediately; Single pays the
provider fee out of the pool balance and enters Resolving. -/
def afterResolve (p : Pool) (env : ResolveEnv) : Except String Pool :=
  match p.winnerType with
  | WinnerType.Single =>
    if p.balance < p.entropyFee then .error "Insufficient balance for entropy fee."
    else .ok { p with
      balance := p.balance - p.entropyFee
      entropySequenceNumber := env.entropySeq
      state := PoolState.Resolving }
  | WinnerType.Proportional =>
    .ok { p with state := PoolState.Resolved, resolved := true }

/-- `resolve(_winningOutcomeIndex, pythUpdateData)`; `msg.value` is credited
to the balance before the body runs.  The Pyth path forwards the quoted
update fee to the oracle and reads a fresh price; the Chronicle path reads
`(value, age)` and checks `age + 60 >= block.timestamp`. -/
def resolve (p : Pool) (sender value now winIdx : Nat) (env : ResolveEnv) :
    Except String Pool :=
  if ¬ sender = p.owner then .error "Not the owner"
  else
    let p0 := { p with balance := p.balance + value }
    if ¬ p0.state = PoolState.Closed then .error "Betting not closed yet."
    else if p0.resolved then .error "Outcome already resolved."
    else
      match p0.settlementType with
      | SettlementType.Wallet =>
        if ¬ winIdx < p0.outcomes.length then .error "Invalid outcome index."
        else afterResolve { p0 with winningOutcomeIndex := winIdx } env
      | SettlementType.Pyth =>
        if value < env.pythUpdateFee then .error "Insufficient fee for price update."
        else
          let p1 := { p0 with balance := p0.balance - env.pythUpdateFee }
          if ¬ env.pythFresh then .error "Price not fresh."
          else
            match toUint256Price env.pythPrice env.pythExpo with
            | .error e => .error e
            | .ok oracleValue =>
              afterResolve { p1 with
                winningOutcomeIndex := getClosestOutcomeIndex p1.outcomes oracleValue } env
      | SettlementType.Chronicle =>
        if env.chronAge + 60 < now then .error "Stale price data."
        else
          afterResolve { p0 with
            winningOutcomeIndex := getClosestOutcomeIndex p0.outcomes env.chronValue } env

/-- `entropyCallback(_sequenceNumber, _providerAddress, _randomNumber)`. -/
def entropyCallback (p : Pool) (seq provider r : Nat) : Except String Pool :=
  if ¬ p.state = PoolState.Resolving then .error "Not in resolving state."
  else if p.resolved then .error "Already resolved."
  else if ¬ seq = p.entropySequenceNumber then .error "Invalid sequence number."
  else if ¬ provider = p.providerAddress then .error "Invalid provider."
  else .ok { p with
    randomNumber := r
    state := PoolState.Resolved
    resolved := true }

/-- `selectRandomWinner()` (the participant it picks, once nonemptiness of
the list has been established). -/
def selectRandomWinner (p : Pool) : Nat :=
  let potentialWinners := p.bettorsPerOutcome p.winningOutcomeIndex
  potentialWinners.getD (p.randomNumber % potentialWinners.length) 0

/-- `claimWinnings()`.  Checked arithmetic: the Proportional branch indexes
`outcomes[winningOutcomeIndex]` (reverting when out of bounds) and divides by
the winning outcome's `totalBets` (reverting when zero). -/
def claimWinnings (p : Pool) (sender : Nat) : Except String Pool :=
  if ¬ p.state = PoolState.Resolved then .error "Outcome not resolved yet."
  else if (p.bettors sender).claimed then .error "Winnings already claimed."
  else
    let winningBet := (p.bettors sender).bets p.winningOutcomeIndex
    if ¬ 0 < winningBet then .error "No winning bet to claim."
    else
      let payoutE : Except String Nat :=
        match p.winnerType with
        | WinnerType.Proportional =>
          if ¬ p.winningOutcomeIndex < p.outcomes.length then
            .error "array index out of bounds"
          else
            let totalWinningBets :=
              (p.outcomes.getD p.winningOutcomeIndex defaultOutcome).totalBets
            if totalWinningBets = 0 then .error "division by zero"
            else .ok (winningBet * getContractBalance p / totalWinningBets)
        | WinnerType.Single =>
          if (p.bettorsPerOutcome p.winningOutcomeIndex).length = 0 then
            .error "No bettors on winning outcome."
          else if ¬ sender = selectRandomWinner p then .error "Not the selected winner."
          else .ok (getContractBalance p)
      match payoutE with
      | .error e => .error e
      | .ok payout =>
        if p.balance < payout then .error "Transfer failed."
        else .ok { p with
          bettors := fun a =>
            if a = sender then { bets := (p.bettors sender).bets, claimed := true }
            else p.bettors a
          balance := p.balance - payout }

/-- The loop of `withdrawBet`, walking the outcomes from index 0: reads the
caller's stake on each outcome, accumulates the refund and decrements the
outcome aggregates (checked subtraction). -/
def withdrawLoop (bets : Nat → Nat) :
    List PredictionOutcome → Nat → Nat → Except String (List PredictionOutcome × Nat)
  | [], _, totalBet => .ok ([], totalBet)
  | o :: rest, i, totalBet =>
    let betAmount := bets i
    if 0 < betAmount then
      if o.totalBets < betAmount then .error "arithmetic underflow"
      else
        match withdrawLoop bets rest (i + 1) (totalBet + betAmount) with
        | .error e => .error e
        | .ok (rest2, t) => .ok ({ o with totalBets := o.totalBets - betAmount } :: rest2, t)
    else
      match withdrawLoop bets rest (i + 1) totalBet with
      | .error e => .error e
      | .ok (rest2, t) => .ok (o :: rest2, t)

/-- `withdrawBet()`. -/
def withdrawBet (p : Pool) (sender : Nat) : Except String Pool :=
  if ¬ p.state = PoolState.Closed then .error "Betting not closed yet."
  else if p.resolved then .error "Cannot withdraw after resolution."
  else
    match withdrawLoop (p.bettors sender).bets p.outcomes 0 0 with
    | .error e => .error e
    | .ok (newOutcomes, totalBet) =>
      if ¬ 0 < totalBet then .error "No bet to withdraw."
      else if p.balance < totalBet then .error "Transfer failed."
      else .ok { p with
        outcomes := newOutcomes
        bettors := fun a =>
          if a = sender then
            { bets := fun i => if i < p.outcomes.length then 0 else (p.bettors sender).bets i
              claimed := (p.bettors sender).claimed }
          else p.bettors a
        balance := p.balance - totalBet }

/-- One public transaction against the pool, with its caller, attached value,
timestamp and external data. -/
inductive PoolAct where
  | placeBet (sender value now idx : Nat)
  | withdrawBet (sender : Nat)
  | claimWinnings (sender : Nat)
  | closeBetting (sender now : Nat)
  | addOutcome (sender : Nat) (nm : String) (prob value : Nat)
  | removeOutcome (sender idx : Nat)
  | extendDeadline (sender now d : Nat)
  | togglePause (sender : Nat)
  | resolve (sender value now winIdx : Nat) (env : ResolveEnv)
  | entropyCallback (seq provider r : Nat)

/-- Execute one transaction. -/
def execAct (p : Pool) : PoolAct → Except String Pool
  | PoolAct.placeBet sender value now idx => placeBet p sender value now idx
  | PoolAct.withdrawBet sender => withdrawBet p sender
  | PoolAct.claimWinnings sender => claimWinnings p sender
  | PoolAct.closeBetting sender now => closeBetting p sender now
  | PoolAct.addOutcome sender nm prob value => addOutcome p sender nm prob value
  | PoolAct.removeOutcome sender idx => removeOutcome p sender idx
  | PoolAct.extendDeadline sender now d => extendDeadline p sender now d
  | PoolAct.togglePause sender => togglePause p sender
  | PoolAct.resolve sender value now winIdx env => resolve p sender value now winIdx env
  | PoolAct.entropyCallback seq provider r => entropyCallback p seq provider r

/-- A reverted transaction leaves the storage unchanged. -/
def applyAct (p : Pool) (a : PoolAct) : Pool :=
  match execAct p a with
  | .ok q => q
  | .error _ => p

/-- Run a sequence of transactions. -/
def runActs (p : Pool) : List PoolAct → Pool
  | [] => p
  | a :: rest => runActs (applyAct p a) rest

/-- `true` iff the call committed (did not revert). -/
def isSuccess (r : Except String Pool) : Bool :=
  match r with
  | .ok _ => true
  | .error _ => false

/-- The revert reason of a failed call (empty for a committed call). -/
def errOf (r : Except String Pool) : String :=
  match r with
  | .ok _ => ""
  | .error e => e

/-- The caller's total stake across the current outcomes,
`sum over i < outcomes.length of bettors[caller].bets[i]`. -/
def callerTotalStake (p : Pool) (sender : Nat) : Nat :=
  ((List.range p.outcomes.length).map (p.bettors sender).bets).sum

/-- `difference` of the outcome stored at index `k` (`absDiff` against the
oracle value). -/
def dAt (oracleValue : Nat) (outcomes : List PredictionOutcome) (k : Nat) : Nat :=
  absDiff oracleValue ((outcomes.getD k defaultOutcome).value)

/-- The outcome list `withdrawBet`'s loop writes back: each outcome's
`totalBets` decremented by the caller's stake on it. -/
def wdList (bets : Nat → Nat) : List PredictionOutcome → Nat → List PredictionOutcome
  | [], _ => []
  | o :: rest, i => { o with totalBets := o.totalBets - bets i } :: wdList bets rest (i + 1)

/-- A transaction that keeps the books conservative: no claim or withdraw, a
`removeOutcome` only of an outcome carrying no stake, and a `resolve` that
attaches no value and (on the Single path) pays no entropy fee. -/
def cleanAct (p : Pool) : PoolAct → Bool
  | PoolAct.withdrawBet _ => false
  | PoolAct.claimWinnings _ => false
  | PoolAct.removeOutcome _ idx => (p.outcomes.getD idx defaultOutcome).totalBets == 0
  | PoolAct.resolve _ value _ _ _ =>
    value == 0 && (!(p.winnerType == WinnerType.Single) || p.entropyFee == 0)
  | _ => true

/-- Every transaction of the list, executed in sequence, is clean. -/
def cleanRun (p : Pool) : List PoolAct → Bool
  | [] => true
  | a :: rest => cleanAct p a && cleanRun (applyAct p a) rest

/-! Concrete pools and transaction traces (owner = address 0, bettors
A = 1, B = 2, C = 3; pools are created at time 0 with a 1-day deadline,
bets are placed at time 10, closing and resolution happen at time 86400). -/

/-- Oracle/entropy inputs for an owner-declared (`Wallet`) resolution. -/
def walletEnv (seq : Nat) : ResolveEnv :=
  { pythUpdateFee := 0, pythFresh := false, pythPrice := 0, pythExpo := 0,
    chronValue := 0, chronAge := 0, entropySeq := seq }

/-- A Proportional / owner-declared pool. -/
def propPool : Pool := mkPool 0 0 0 1 WinnerType.Proportional SettlementType.Wallet 7 0

/-- A bets 100 and B bets 300 on outcome 1; the owner closes and declares
outcome 1 the winner (Scenario A of the spec). -/
def actsAB : List PoolAct :=
  [PoolAct.addOutcome 0 "a" 5000 0, PoolAct.addOutcome 0 "b" 5000 1,
   PoolAct.placeBet 1 100 10 1, PoolAct.placeBet 2 300 10 1,
   PoolAct.closeBetting 0 86400, PoolAct.resolve 0 0 86400 1 (walletEnv 1)]

/-- C stakes 100 on outcome 0, A stakes 100 and B stakes 300 on outcome 1;
outcome 1 wins; A claims (receiving 125 of the 500 pool). -/
def actsProbClaim : List PoolAct :=
  [PoolAct.addOutcome 0 "a" 5000 0, PoolAct.addOutcome 0 "b" 5000 1,
   PoolAct.placeBet 3 100 10 0, PoolAct.placeBet 1 100 10 1, PoolAct.placeBet 2 300 10 1,
   PoolAct.closeBetting 0 86400, PoolAct.resolve 0 0 86400 1 (walletEnv 1),
   PoolAct.claimWinnings 1]

/-- Two outcomes declared with priors of 10000 each; no bets. -/
def actsPriors : List PoolAct :=
  [PoolAct.addOutcome 0 "a" 10000 0, PoolAct.addOutcome 0 "b" 10000 1]

/-- One outcome, then the pool is closed after the deadline. -/
def actsClosed : List PoolAct :=
  [PoolAct.addOutcome 0 "a" 5000 0, PoolAct.closeBetting 0 86400]

/-- A stakes 100 on outcome 0, the owner removes outcome 0 (swap-and-pop),
then the pool closes: A's recorded stake now exceeds the relocated
outcome's aggregate. -/
def actsRemovedStake : List PoolAct :=
  [PoolAct.addOutcome 0 "a" 5000 0, PoolAct.addOutcome 0 "b" 5000 1,
   PoolAct.placeBet 1 100 10 0, PoolAct.removeOutcome 0 0,
   PoolAct.closeBetting 0 86400]

/-- A Single-winner / owner-declared pool whose entropy provider (address 7)
charges a fee of 10 wei. -/
def feePool : Pool := mkPool 0 0 0 1 WinnerType.Single SettlementType.Wallet 7 10

/-- A bets 100, the pool closes, and the owner resolves: the Single path
pays the 10-wei entropy fee out of the pool balance. -/
def actsFee : List PoolAct :=
  [PoolAct.addOutcome 0 "a" 5000 0, PoolAct.addOutcome 0 "b" 5000 1,
   PoolAct.placeBet 1 100 10 0, PoolAct.closeBetting 0 86400,
   PoolAct.resolve 0 0 86400 0 (walletEnv 1)]

/-- A Single-winner / owner-declared pool with a zero entropy fee. -/
def singlePool : Pool := mkPool 0 0 0 1 WinnerType.Single SettlementType.Wallet 7 0

/-- A bets 100, the pool closes and resolves: the randomness request is
outstanding, so the pool is left in the Resolving state. -/
def actsResolving : List PoolAct :=
  [PoolAct.addOutcome 0 "a" 5000 0, PoolAct.placeBet 1 100 10 0,
   PoolAct.closeBetting 0 86400, PoolAct.resolve 0 0 86400 0 (walletEnv 1)]

/-- A bets on outcome 0 and B on outcome 1; after closing, A withdraws the
bet (remaining in outcome 0's participant list), then the owner resolves to
outcome 0 and the randomness callback delivers r = 0. -/
def actsWithdrawnWinner : List PoolAct :=
  [PoolAct.addOutcome 0 "a" 5000 0, PoolAct.addOutcome 0 "b" 5000 1,
   PoolAct.placeBet 1 100 10 0, PoolAct.placeBet 2 50 10 1,
   PoolAct.closeBetting 0 86400, PoolAct.withdrawBet 1,
   PoolAct.resolve 0 0 86400 0 (walletEnv 1), PoolAct.entropyCallback 1 7 0]

/-- A bets 100 on outcome 0 and stays; resolution and the randomness
callback (r = 5) complete, so A is the selected Single winner. -/
def actsSingleClaim : List PoolAct :=
  [PoolAct.addOutcome 0 "a" 5000 0, PoolAct.addOutcome 0 "b" 5000 1,
   PoolAct.placeBet 1 100 10 0, PoolAct.closeBetting 0 86400,
   PoolAct.resolve 0 0 86400 0 (walletEnv 1), PoolAct.entropyCallback 1 7 5]

/-- A Proportional / owner-declared pool capped at 200 wei. -/
def capPool : Pool := mkPool 0 200 0 1 WinnerType.Proportional SettlementType.Wallet 7 0

/-- Outcomes with values 10, 20, 20: the oracle value 21 is nearest to 20,
held by indices 1 and 2 (a tie). -/
def tieOutcomes : List PredictionOutcome :=
  [⟨"x", 0, 0, 10⟩, ⟨"y", 0, 0, 20⟩, ⟨"z", 0, 0, 20⟩]

/-! ## Theorems -/

/-- C2 counterexample: in the Scenario-A pool (A stakes 100 and B stakes 300
on the winning outcome 1), when A claims first, B's subsequent claim
succeeds but pays out 225, not the 300 the claim asserts: `claimWinnings`
divides by the winning outcome's frozen `totalBets` (400) but multiplies by
the *current* balance (300 after A's claim), so payouts depend on claim
order. -/
theorem proportional_second_claim_counterexample :
    isSuccess (claimWinnings (runActs propPool (actsAB ++ [PoolAct.claimWinnings 1])) 2)
      = true ∧
    (runActs propPool (actsAB ++ [PoolAct.claimWinnings 1])).balance -
      (runActs propPool
        (actsAB ++ [PoolAct.claimWinnings 1, PoolAct.claimWinnings 2])).balance = 225 ∧
    ¬ (225 : Nat) = 300 := by
  decide

/-- C2 amended: in the Scenario-A pool, whichever of A and B claims first
receives exactly their stake (A: 100, B: 300), but the second claimant's
payout is computed from the already-reduced balance: after A's claim of
100, B receives only 225 (leaving 75 stranded); after B's claim of 300, A
receives only 25.  The five balances below (400 after resolution, then
after each claim order) pin down all four payouts. -/
theorem proportional_payouts_order_dependent :
    (runActs propPool actsAB).balance = 400 ∧
    (runActs propPool (actsAB ++ [PoolAct.claimWinnings 1])).balance = 300 ∧
    (runActs propPool
      (actsAB ++ [PoolAct.claimWinnings 1, PoolAct.claimWinnings 2])).balance = 75 ∧
    (runActs propPool (actsAB ++ [PoolAct.claimWinnings 2])).balance = 100 ∧
    (runActs propPool
      (actsAB ++ [PoolAct.claimWinnings 2, PoolAct.claimWinnings 1])).balance = 75 := by
  decide

/-- C1 counterexample: a reachable state before any claim or withdraw where
the held balance differs from the sum of the outcomes' `totalBets`.  The
Single-policy resolve pays the 10-wei entropy fee out of the pool balance
(90 ≠ 100), and a `removeOutcome` of a staked outcome drops that stake from
the sum while the balance keeps it (100 ≠ 0). -/
theorem single_fee_balance_counterexample :
    (runActs feePool actsFee).state = PoolState.Resolving ∧
    (runActs feePool actsFee).balance = 90 ∧
    sumTotalBets (runActs feePool actsFee) = 100 ∧
    (runActs propPool actsRemovedStake).balance = 100 ∧
    sumTotalBets (runActs propPool actsRemovedStake) = 0 := by
  decide

/-- C3 counterexample: in a reachable Resolving state (Single-policy
randomness request outstanding), the owner's `togglePause` succeeds and
flips `paused`, and the owner's `addOutcome` succeeds and appends an
outcome — neither operation is guarded by the pool state, so pool mutation
is possible before the callback arrives. -/
theorem resolving_admin_mutation_counterexample :
    (runActs singlePool actsResolving).state = PoolState.Resolving ∧
    (runActs singlePool actsResolving).paused = false ∧
    (applyAct (runActs singlePool actsResolving) (PoolAct.togglePause 0)).paused = true ∧
    (applyAct (runActs singlePool actsResolving) (PoolAct.togglePause 0)).state =
      PoolState.Resolving ∧
    (applyAct (runActs singlePool actsResolving)
      (PoolAct.addOutcome 0 "c" 100 0)).outcomes.length =
      (runActs singlePool actsResolving).outcomes.length + 1 := by
  decide

/-- C4 counterexample: `getProbabilities()` entries can sum to more than
10000 in reachable states.  With zero balance the entries are the declared
priors, which `addOutcome` only bounds individually (10000 + 10000 =
20000); and after a Proportional claim the balance (375) falls below the
frozen `totalBets` sum (500), giving 2666 + 10666 = 13332. -/
theorem probabilities_sum_counterexample :
    (runActs propPool actsPriors).balance = 0 ∧
    (getProbabilities (runActs propPool actsPriors)).sum = 20000 ∧
    getProbabilities (runActs propPool actsProbClaim) = [2666, 10666] ∧
    (getProbabilities (runActs propPool actsProbClaim)).sum = 13332 := by
  decide

/-- C5 counterexample: `addOutcome` by the owner succeeds in the Closed
state (there is no Open-state guard in the source), growing the outcome
list from 1 to 2. -/
theorem addOutcome_closed_state_counterexample :
    (runActs propPool actsClosed).state = PoolState.Closed ∧
    isSuccess (addOutcome (runActs propPool actsClosed) 0 "c" 100 0) = true ∧
    (applyAct (runActs propPool actsClosed) (PoolAct.addOutcome 0 "c" 100 0)).outcomes.length
      = 2 := by
  decide

/-- C9 counterexample: a Resolved Single pool whose winning-outcome
participant list is `[A]` and whose random value is 0, so A is the
participant at index `r mod n`; yet A's `claimWinnings` fails, because A
withdrew the stake while the pool was Closed (remaining in the participant
list) and the `winningBet > 0` guard fires first. -/
theorem single_selected_winner_claim_fails :
    (runActs singlePool actsWithdrawnWinner).state = PoolState.Resolved ∧
    (runActs singlePool actsWithdrawnWinner).winnerType = WinnerType.Single ∧
    (runActs singlePool actsWithdrawnWinner).bettorsPerOutcome
      (runActs singlePool actsWithdrawnWinner).winningOutcomeIndex = [1] ∧
    (runActs singlePool actsWithdrawnWinner).randomNumber = 0 ∧
    selectRandomWinner (runActs singlePool actsWithdrawnWinner) = 1 ∧
    isSuccess (claimWinnings (runActs singlePool actsWithdrawnWinner) 1) = false ∧
    errOf (claimWinnings (runActs singlePool actsWithdrawnWinner) 1) =
      "No winning bet to claim." := by
  decide

/-- C6 counterexample: a reachable Closed, unresolved state where the
caller's total stake is positive (A still has 100 recorded on index 0) and
the balance covers it, yet `withdrawBet` fails: the staked outcome was
removed by swap-and-pop, so decrementing the relocated outcome's
`totalBets` (0) underflows and the call reverts. -/
theorem withdrawBet_underflow_counterexample :
    (runActs propPool actsRemovedStake).state = PoolState.Closed ∧
    (runActs propPool actsRemovedStake).resolved = false ∧
    callerTotalStake (runActs propPool actsRemovedStake) 1 = 100 ∧
    (runActs propPool actsRemovedStake).balance = 100 ∧
    isSuccess (withdrawBet (runActs propPool actsRemovedStake) 1) = false := by
  decide

/-- C5 amended: `addOutcome` succeeds exactly when the caller is the owner
and the prior is at most 10000 basis points — in any pool state (the source
has no Open-state guard).  A non-owner fails with the authorization error
and an out-of-range prior with the validation error; on success the outcome
is appended and the state is untouched. -/
theorem addOutcome_succeeds_iff (p : Pool) (sender : Nat) (nm : String)
    (prob value : Nat) :
    (isSuccess (addOutcome p sender nm prob value) = true ↔
      (sender = p.owner ∧ prob ≤ 10000)) ∧
    (¬ sender = p.owner → errOf (addOutcome p sender nm prob value) = "Not the owner") ∧
    (sender = p.owner → 10000 < prob →
      errOf (addOutcome p sender nm prob value) =
        "Probability must be between 0 and 10000.") ∧
    (isSuccess (addOutcome p sender nm prob value) = true →
      (applyAct p (PoolAct.addOutcome sender nm prob value)).outcomes =
        p.outcomes ++ [⟨nm, 0, prob, value⟩] ∧
      (applyAct p (PoolAct.addOutcome sender nm prob value)).state = p.state) := by
  by_cases h1 : sender = p.owner <;> by_cases h2 : prob ≤ 10000 <;>
    simp [addOutcome, isSuccess, errOf, applyAct, execAct, h1, h2]

/-- C5 witness: for the owner and a prior within range, the
characterization instantiates to a provable success. -/
theorem addOutcome_succeeds_iff_witness :
    isSuccess (addOutcome propPool 0 "x" 5000 0) = true ↔
      ((0 : Nat) = propPool.owner ∧ (5000 : Nat) ≤ 10000) :=
  (addOutcome_succeeds_iff propPool 0 "x" 5000 0).1

/-- C3 amended: while the pool is Resolving (randomness request
outstanding), `placeBet`, `withdrawBet`, `resolve`, `closeBetting`,
`extendDeadline` and `claimWinnings` all revert and change nothing — but
not the three unguarded owner operations `addOutcome`, `removeOutcome` and
`togglePause`, which do mutate the pool (see the counterexample). -/
theorem resolving_blocks_core_ops (p : Pool) (h : p.state = PoolState.Resolving)
    (sender value now idx winIdx d : Nat) (env : ResolveEnv) :
    isSuccess (placeBet p sender value now idx) = false ∧
    isSuccess (withdrawBet p sender) = false ∧
    isSuccess (resolve p sender value now winIdx env) = false ∧
    isSuccess (closeBetting p sender now) = false ∧
    isSuccess (extendDeadline p sender now d) = false ∧
    isSuccess (claimWinnings p sender) = false := by
  refine ⟨?_, ?_, ?_, ?_, ?_, ?_⟩
  · simp [placeBet, isSuccess, h]
  · simp [withdrawBet, isSuccess, h]
  · by_cases hs : sender = p.owner <;> simp [resolve, isSuccess, h, hs]
  · by_cases hs : sender = p.owner <;> simp [closeBetting, isSuccess, h, hs]
  · by_cases hs : sender = p.owner <;> simp [extendDeadline, isSuccess, h, hs]
  · simp [claimWinnings, isSuccess, h]

/-- C3 witness: the six state-guarded operations all fail on the concrete
Resolving pool of the counterexample trace. -/
theorem resolving_blocks_core_ops_witness :
    isSuccess (placeBet (runActs singlePool actsResolving) 1 5 10 0) = false ∧
    isSuccess (withdrawBet (runActs singlePool actsResolving) 1) = false ∧
    isSuccess (resolve (runActs singlePool actsResolving) 0 0 86400 0 (walletEnv 2))
      = false ∧
    isSuccess (closeBetting (runActs singlePool actsResolving) 0 86400) = false ∧
    isSuccess (extendDeadline (runActs singlePool actsResolving) 0 10 1) = false ∧
    isSuccess (claimWinnings (runActs singlePool actsResolving) 1) = false :=
  resolving_blocks_core_ops (runActs singlePool actsResolving) (by decide)
    1 5 10 0 0 1 (walletEnv 2)

/-- C7: with a nonzero cap, a bet whose attached value brings the post-bet
balance exactly to `maxLimit` succeeds (the cap check reads
`address(this).balance`, which already includes `msg.value`), while one
more wei fails with the capacity error and leaves the pool unchanged. -/
theorem placeBet_maxLimit_boundary (p : Pool) (sender value now idx : Nat)
    (hopen : p.state = PoolState.Open) (hnow : now < p.deadline)
    (hpause : p.paused = false) (hidx : idx < p.outcomes.length) (hv : 0 < value)
    (hml : 0 < p.maxLimit) (hcap : p.balance + value = p.maxLimit) :
    isSuccess (placeBet p sender value now idx) = true ∧
    (applyAct p (PoolAct.placeBet sender value now idx)).balance = p.maxLimit ∧
    isSuccess (placeBet p sender (value + 1) now idx) = false ∧
    errOf (placeBet p sender (value + 1) now idx) = "Max limit reached." ∧
    applyAct p (PoolAct.placeBet sender (value + 1) now idx) = p := by
  have hlt : ¬ p.maxLimit < p.balance + value := by omega
  have hlt2 : p.maxLimit < p.balance + (value + 1) := by omega
  refine ⟨?_, ?_, ?_, ?_, ?_⟩ <;>
    simp [placeBet, isSuccess, errOf, applyAct, execAct, hopen, hnow, hpause, hidx,
      hv, hml, hcap, hlt, hlt2]

/-- C7 witness: on the capped pool (cap 200, balance 0), a 200-wei bet
succeeds and a 201-wei bet fails with the capacity error. -/
theorem placeBet_maxLimit_boundary_witness :
    isSuccess (placeBet (runActs capPool [PoolAct.addOutcome 0 "a" 5000 0]) 1 200 10 0)
      = true ∧
    (applyAct (runActs capPool [PoolAct.addOutcome 0 "a" 5000 0])
      (PoolAct.placeBet 1 200 10 0)).balance =
      (runActs capPool [PoolAct.addOutcome 0 "a" 5000 0]).maxLimit ∧
    isSuccess (placeBet (runActs capPool [PoolAct.addOutcome 0 "a" 5000 0]) 1 (200 + 1) 10 0)
      = false ∧
    errOf (placeBet (runActs capPool [PoolAct.addOutcome 0 "a" 5000 0]) 1 (200 + 1) 10 0) =
      "Max limit reached." ∧
    applyAct (runActs capPool [PoolAct.addOutcome 0 "a" 5000 0])
      (PoolAct.placeBet 1 (200 + 1) 10 0) = runActs capPool [PoolAct.addOutcome 0 "a" 5000 0] := by
  have h := placeBet_maxLimit_boundary (runActs capPool [PoolAct.addOutcome 0 "a" 5000 0])
    1 200 10 0 (by decide) (by decide) (by decide) (by decide) (by decide) (by decide)
    (by decide)
  exact ⟨h.1, h.2.1, h.2.2.1, h.2.2.2.1, h.2.2.2.2⟩

/-- C10: `removeOutcome(index)` mutates only the outcomes array — it writes
the last element over position `index` and truncates by one; the bettors
mapping, the per-outcome participant lists, the membership flags and every
other storage field are untouched, so those ledgers stay keyed to the
pre-removal indexing. -/
theorem removeOutcome_frame (p : Pool) (sender idx : Nat)
    (hs : sender = p.owner) (hidx : idx < p.outcomes.length) :
    isSuccess (removeOutcome p sender idx) = true ∧
    (applyAct p (PoolAct.removeOutcome sender idx)).outcomes =
      (p.outcomes.set idx (p.outcomes.getD (p.outcomes.length - 1) defaultOutcome)).dropLast ∧
    (applyAct p (PoolAct.removeOutcome sender idx)).bettors = p.bettors ∧
    (applyAct p (PoolAct.removeOutcome sender idx)).bettorsPerOutcome =
      p.bettorsPerOutcome ∧
    (applyAct p (PoolAct.removeOutcome sender idx)).hasBettorBetOnOutcome =
      p.hasBettorBetOnOutcome ∧
    (applyAct p (PoolAct.removeOutcome sender idx)).balance = p.balance ∧
    (applyAct p (PoolAct.removeOutcome sender idx)).state = p.state ∧
    (applyAct p (PoolAct.removeOutcome sender idx)).resolved = p.resolved ∧
    (applyAct p (PoolAct.removeOutcome sender idx)).paused = p.paused ∧
    (applyAct p (PoolAct.removeOutcome sender idx)).maxLimit = p.maxLimit ∧
    (applyAct p (PoolAct.removeOutcome sender idx)).deadline = p.deadline ∧
    (applyAct p (PoolAct.removeOutcome sender idx)).owner = p.owner ∧
    (applyAct p (PoolAct.removeOutcome sender idx)).winningOutcomeIndex =
      p.winningOutcomeIndex ∧
    (applyAct p (PoolAct.removeOutcome sender idx)).settlementType = p.settlementType ∧
    (applyAct p (PoolAct.removeOutcome sender idx)).winnerType = p.winnerType ∧
    (applyAct p (PoolAct.removeOutcome sender idx)).providerAddress = p.providerAddress ∧
    (applyAct p (PoolAct.removeOutcome sender idx)).entropySequenceNumber =
      p.entropySequenceNumber ∧
    (applyAct p (PoolAct.removeOutcome sender idx)).randomNumber = p.randomNumber ∧
    (applyAct p (PoolAct.removeOutcome sender idx)).entropyFee = p.entropyFee := by
  simp [removeOutcome, isSuccess, applyAct, execAct, hs, hidx]

/-- C10 witness: removing outcome 0 of the two-outcome pool keeps the
bettor ledgers intact (here shown on the state of the removed-stake trace
prefix, swap-and-popping index 0). -/
theorem removeOutcome_frame_witness :
    isSuccess (removeOutcome (runActs propPool actsPriors) 0 0) = true ∧
    (applyAct (runActs propPool actsPriors) (PoolAct.removeOutcome 0 0)).bettors =
      (runActs propPool actsPriors).bettors ∧
    (applyAct (runActs propPool actsPriors) (PoolAct.removeOutcome 0 0)).bettorsPerOutcome =
      (runActs propPool actsPriors).bettorsPerOutcome := by
  have h := removeOutcome_frame (runActs propPool actsPriors) 0 0 (by decide) (by decide)
  exact ⟨h.1, h.2.2.1, h.2.2.2.1⟩

/-- C9 amended: in a Resolved Single pool with a non-empty winning-outcome
participant list, `claimWinnings` succeeds exactly for the caller who (a)
equals the participant at index `randomNumber mod n` of that list, (b)
still has a positive stake recorded on the winning outcome, and (c) has
not claimed yet — a selected participant who withdrew their stake while
the pool was Closed fails (see the counterexample); on success the caller
is paid the entire current pool balance. -/
theorem single_claim_characterization (p : Pool) (sender : Nat)
    (hst : p.state = PoolState.Resolved) (hwt : p.winnerType = WinnerType.Single)
    (hne : (p.bettorsPerOutcome p.winningOutcomeIndex).length ≠ 0) :
    (isSuccess (claimWinnings p sender) = true ↔
      ((p.bettors sender).claimed = false ∧
        0 < (p.bettors sender).bets p.winningOutcomeIndex ∧
        sender = selectRandomWinner p)) ∧
    (isSuccess (claimWinnings p sender) = true →
      (applyAct p (PoolAct.claimWinnings sender)).balance = 0 ∧
      ((applyAct p (PoolAct.claimWinnings sender)).bettors sender).claimed = true) := by
  by_cases hw : sender = selectRandomWinner p
  · subst hw
    by_cases hc : (p.bettors (selectRandomWinner p)).claimed <;>
      by_cases hb : 0 < (p.bettors (selectRandomWinner p)).bets p.winningOutcomeIndex <;>
      simp [claimWinnings, isSuccess, applyAct, execAct, getContractBalance,
        hst, hwt, hne, hc, hb]
  · by_cases hc : (p.bettors sender).claimed <;>
      by_cases hb : 0 < (p.bettors sender).bets p.winningOutcomeIndex <;>
      simp [claimWinnings, isSuccess, applyAct, execAct, getContractBalance,
        hst, hwt, hne, hc, hb, hw]

/-- C9 witness: on the concrete Resolved Single pool where A stayed staked
(participant list `[A]`, random value 5), the characterization yields that
A's claim succeeds and drains the whole balance. -/
theorem single_claim_characterization_witness :
    isSuccess (claimWinnings (runActs singlePool actsSingleClaim) 1) = true ∧
    (applyAct (runActs singlePool actsSingleClaim) (PoolAct.claimWinnings 1)).balance = 0 := by
  have h := single_claim_characterization (runActs singlePool actsSingleClaim) 1
    (by decide) (by decide) (by decide)
  have hs : isSuccess (claimWinnings (runActs singlePool actsSingleClaim) 1) = true :=
    h.1.mpr (by decide)
  exact ⟨hs, (h.2 hs).1⟩

/-- Sums of truncating `Nat` divisions are bounded by the division of the
sum. -/
theorem sum_map_div_le (ns : List Nat) (b : Nat) :
    (ns.map (fun x => x / b)).sum ≤ ns.sum / b := by
  induction ns with
  | nil => simp
  | cons a rest ih =>
    simp only [List.map_cons, List.sum_cons]
    calc a / b + (rest.map (fun x => x / b)).sum ≤ a / b + rest.sum / b :=
          Nat.add_le_add_left ih _
      _ ≤ (a + rest.sum) / b := Nat.add_div_le_add_div a rest.sum b

/-- C4 amended: the entries of `getProbabilities()` sum to at most 10000 in
every state whose (positive) balance is at least the sum of the outcomes'
`totalBets` — in particular before any claim, entropy-fee payment or
removal of a staked outcome; and whenever the balance is zero every entry
equals the outcome's declared prior.  (The unqualified bound of the claim
fails: with zero balance the entries are the priors, whose sum `addOutcome`
does not cap, and after a Proportional claim the balance drops below the
`totalBets` sum — see the counterexample.) -/
theorem probabilities_sum_le_and_priors (p : Pool) :
    (0 < p.balance → sumTotalBets p ≤ p.balance → (getProbabilities p).sum ≤ 10000) ∧
    (p.balance = 0 →
      getProbabilities p = p.outcomes.map PredictionOutcome.initialProbability) := by
  constructor
  · intro hpos hle
    have hprob : getProbabilities p =
        (p.outcomes.map (fun o => o.totalBets * 10000)).map (fun x => x / p.balance) := by
      simp only [getProbabilities, getContractBalance, List.map_map, hpos, if_pos]
      rfl
    have h1 : (getProbabilities p).sum ≤
        (p.outcomes.map (fun o => o.totalBets * 10000)).sum / p.balance := by
      rw [hprob]
      exact sum_map_div_le _ _
    have h2 : (p.outcomes.map (fun o => o.totalBets * 10000)).sum =
        sumTotalBets p * 10000 := by
      simpa [sumTotalBets] using
        List.sum_map_mul_right p.outcomes PredictionOutcome.totalBets 10000
    have h3 : sumTotalBets p * 10000 / p.balance ≤ p.balance * 10000 / p.balance :=
      Nat.div_le_div_right (Nat.mul_le_mul_right 10000 hle)
    have h4 : p.balance * 10000 / p.balance = 10000 :=
      Nat.mul_div_cancel_left 10000 hpos
    calc (getProbabilities p).sum
        ≤ (p.outcomes.map (fun o => o.totalBets * 10000)).sum / p.balance := h1
      _ = sumTotalBets p * 10000 / p.balance := by rw [h2]
      _ ≤ p.balance * 10000 / p.balance := h3
      _ = 10000 := h4
  · intro h0
    simp [getProbabilities, getContractBalance, h0]

/-- C4 witness: the Scenario-A pool right after resolution (balance 400 =
totalBets sum) satisfies the bound, and the freshly created two-outcome
pool (balance 0) reports its declared priors. -/
theorem probabilities_sum_le_and_priors_witness :
    (getProbabilities (runActs propPool actsAB)).sum ≤ 10000 ∧
    getProbabilities (runActs propPool actsPriors) =
      (runActs propPool actsPriors).outcomes.map PredictionOutcome.initialProbability :=
  ⟨(probabilities_sum_le_and_priors (runActs propPool actsAB)).1 (by decide) (by decide),
   (probabilities_sum_le_and_priors (runActs propPool actsPriors)).2 (by decide)⟩

/-- Effects of a successful `_afterResolve`: the outcome list and the
recorded winner are untouched; Proportional leaves the balance alone while
Single deducts the entropy fee. -/
theorem afterResolve_ok (p : Pool) (env : ResolveEnv) (q : Pool)
    (h : afterResolve p env = .ok q) :
    q.outcomes = p.outcomes ∧ q.winningOutcomeIndex = p.winningOutcomeIndex ∧
    (p.winnerType = WinnerType.Proportional → q.balance = p.balance) ∧
    (p.winnerType = WinnerType.Single →
      p.entropyFee ≤ p.balance ∧ q.balance = p.balance - p.entropyFee) := by
  cases hw : p.winnerType <;> simp only [afterResolve, hw] at h
  · cases h
    simp [hw]
  · split at h
    · cases h
    · cases h
      simp [hw]
      omega

/-- A successful `resolve` never changes the outcome list. -/
theorem resolve_ok_outcomes (p : Pool) (s v n w : Nat) (env : ResolveEnv) (q : Pool)
    (h : resolve p s v n w env = .ok q) : q.outcomes = p.outcomes := by
  simp only [resolve] at h
  split at h
  · cases h
  · split at h
    · cases h
    · split at h
      · cases h
      · split at h
        · split at h
          · cases h
          · have := (afterResolve_ok _ _ _ h).1
            simpa using this
        · split at h
          · cases h
          · split at h
            · cases h
            · split at h
              · cases h
              · have := (afterResolve_ok _ _ _ h).1
                simpa using this
        · split at h
          · cases h
          · have := (afterResolve_ok _ _ _ h).1
            simpa using this

/-- A successful pull-oracle (`Chronicle`) `resolve` records as winner the
index `_getClosestOutcomeIndex` computes for the oracle's reading. -/
theorem resolve_ok_chronicle_win (p : Pool) (s v n w : Nat) (env : ResolveEnv) (q : Pool)
    (hset : p.settlementType = SettlementType.Chronicle)
    (h : resolve p s v n w env = .ok q) :
    q.winningOutcomeIndex = getClosestOutcomeIndex p.outcomes env.chronValue := by
  simp only [resolve, hset] at h
  split at h
  · cases h
  · split at h
    · cases h
    · split at h
      · cases h
      · split at h
        · cases h
        · have := (afterResolve_ok _ _ _ h).2.1
          simpa using this

/-- A successful push-oracle (`Pyth`) `resolve` records as winner the index
`_getClosestOutcomeIndex` computes for the converted oracle price. -/
theorem resolve_ok_pyth_win (p : Pool) (s v n w : Nat) (env : ResolveEnv) (q : Pool)
    (ov : Nat) (hset : p.settlementType = SettlementType.Pyth)
    (hconv : toUint256Price env.pythPrice env.pythExpo = .ok ov)
    (h : resolve p s v n w env = .ok q) :
    q.winningOutcomeIndex = getClosestOutcomeIndex p.outcomes ov := by
  simp only [resolve, hset] at h
  split at h
  · cases h
  · split at h
    · cases h
    · split at h
      · cases h
      · split at h
        · cases h
        · split at h
          · cases h
          · rw [hconv] at h
            have := (afterResolve_ok _ _ _ h).2.1
            simpa using this

/-- Loop invariant of `_getClosestOutcomeIndex`: scanning the suffix `l` of
`L` that starts at position `i`, with a candidate `ci` whose difference is
at most `sd`, every already-scanned position's difference at least `sd`,
and `ci` strictly better than every earlier position, the loop returns the
least index of `L` whose difference is minimal. -/
theorem closestLoop_spec (ov : Nat) (L : List PredictionOutcome) :
    ∀ (l : List PredictionOutcome) (i ci sd : Nat),
      i + l.length = L.length →
      (∀ j, j < l.length → l.getD j defaultOutcome = L.getD (i + j) defaultOutcome) →
      ci < L.length →
      dAt ov L ci ≤ sd →
      (∀ k, k < i → sd ≤ dAt ov L k) →
      (∀ j, j < ci → dAt ov L ci < dAt ov L j) →
      closestLoop ov l i ci sd < L.length ∧
      (∀ k, k < L.length → dAt ov L (closestLoop ov l i ci sd) ≤ dAt ov L k) ∧
      (∀ j, j < closestLoop ov l i ci sd →
        dAt ov L (closestLoop ov l i ci sd) < dAt ov L j) := by
  intro l
  induction l with
  | nil =>
    intro i ci sd hlen hsuf hci h7 h2a h6
    simp only [closestLoop]
    refine ⟨hci, ?_, h6⟩
    intro k hk
    have hki : k < i := by simp at hlen; omega
    exact le_trans h7 (h2a k hki)
  | cons o rest ih =>
    intro i ci sd hlen hsuf hci h7 h2a h6
    have hi : i < L.length := by simp at hlen; omega
    have ho : o = L.getD i defaultOutcome := by
      have h0 := hsuf 0 (by simp)
      simpa using h0
    have hd : absDiff ov o.value = dAt ov L i := by
      rw [ho]; rfl
    have hsuf2 : ∀ j, j < rest.length →
        rest.getD j defaultOutcome = L.getD (i + 1 + j) defaultOutcome := by
      intro j hj
      have := hsuf (j + 1) (by simp; omega)
      have harith : i + (j + 1) = i + 1 + j := by omega
      simpa [harith] using this
    simp only [closestLoop]
    by_cases hlt : absDiff ov o.value < sd
    · rw [if_pos hlt]
      apply ih (i + 1) i (absDiff ov o.value)
      · simp at hlen ⊢; omega
      · exact hsuf2
      · exact hi
      · rw [hd]
      · intro k hk
        rcases Nat.lt_succ_iff_lt_or_eq.mp hk with hk2 | hk2
        · exact le_of_lt (lt_of_lt_of_le hlt (h2a k hk2))
        · subst hk2; rw [hd]
      · intro j hj
        rw [← hd]
        exact lt_of_lt_of_le hlt (h2a j hj)
    · rw [if_neg hlt]
      apply ih (i + 1) ci sd
      · simp at hlen ⊢; omega
      · exact hsuf2
      · exact hci
      · exact h7
      · intro k hk
        rcases Nat.lt_succ_iff_lt_or_eq.mp hk with hk2 | hk2
        · exact h2a k hk2
        · subst hk2; rw [← hd]; omega
      · exact h6

/-- C8: for a non-empty outcome list (with `uint256`-sized differences, as
in the source), `_getClosestOutcomeIndex` returns a valid index whose
outcome `value` has the smallest absolute difference from the oracle
price, and every smaller index has a strictly larger difference (ties are
broken by the first occurrence); both the push-oracle (`Pyth`) and the
pull-oracle (`Chronicle`) resolution paths record exactly this index as
the winner. -/
theorem closest_outcome_selection (outcomes : List PredictionOutcome) (oracleValue : Nat)
    (hne : outcomes ≠ [])
    (hb : ∀ o ∈ outcomes, absDiff oracleValue o.value < UINT256) :
    getClosestOutcomeIndex outcomes oracleValue < outcomes.length ∧
    (∀ k, k < outcomes.length →
      dAt oracleValue outcomes (getClosestOutcomeIndex outcomes oracleValue) ≤
        dAt oracleValue outcomes k) ∧
    (∀ j, j < getClosestOutcomeIndex outcomes oracleValue →
      dAt oracleValue outcomes (getClosestOutcomeIndex outcomes oracleValue) <
        dAt oracleValue outcomes j) ∧
    (∀ p s v n w env q, Pool.settlementType p = SettlementType.Chronicle →
      resolve p s v n w env = .ok q →
      q.winningOutcomeIndex = getClosestOutcomeIndex p.outcomes env.chronValue) ∧
    (∀ p s v n w env q ov, Pool.settlementType p = SettlementType.Pyth →
      toUint256Price env.pythPrice env.pythExpo = .ok ov →
      resolve p s v n w env = .ok q →
      q.winningOutcomeIndex = getClosestOutcomeIndex p.outcomes ov) := by
  have hlen : 0 < outcomes.length := List.length_pos.mpr hne
  have hget0 : outcomes.getD 0 defaultOutcome ∈ outcomes := by
    cases outcomes with
    | nil => exact absurd rfl hne
    | cons a rest => simp [List.getD]
  have h70 : dAt oracleValue outcomes 0 ≤ UINT256 - 1 := by
    have := hb _ hget0
    unfold dAt
    omega
  have hmain := closestLoop_spec oracleValue outcomes outcomes 0 0 (UINT256 - 1)
    (by simp) (by intro j hj; simp) hlen h70
    (by intro k hk; omega) (by intro j hj; omega)
  refine ⟨hmain.1, hmain.2.1, hmain.2.2, ?_, ?_⟩
  · intro p s v n w env q hset h
    exact resolve_ok_chronicle_win p s v n w env q hset h
  · intro p s v n w env q ov hset hconv h
    exact resolve_ok_pyth_win p s v n w env q ov hset hconv h

/-- C8 witness: on the concrete outcome list with values 10, 20, 20 and
oracle value 21, the selected index is 1 — the first of the two tied
nearest outcomes — and its difference (1) is at most index 0's (11). -/
theorem closest_outcome_selection_witness :
    getClosestOutcomeIndex tieOutcomes 21 < tieOutcomes.length ∧
    dAt 21 tieOutcomes (getClosestOutcomeIndex tieOutcomes 21) ≤ dAt 21 tieOutcomes 0 ∧
    dAt 21 tieOutcomes (getClosestOutcomeIndex tieOutcomes 21) < dAt 21 tieOutcomes 0 := by
  have h := closest_outcome_selection tieOutcomes 21 (by decide) (by decide)
  exact ⟨h.1, h.2.1 0 (by decide), h.2.2.1 0 (by decide)⟩

/-- `wdList` keeps the list length. -/
theorem wdList_length (bets : Nat → Nat) :
    ∀ (l : List PredictionOutcome) (i : Nat), (wdList bets l i).length = l.length := by
  intro l
  induction l with
  | nil => intro i; rfl
  | cons o rest ih => intro i; simp [wdList, ih]

/-- Entry `j` of `wdList` is the original outcome with the caller's stake
subtracted from `totalBets`. -/
theorem wdList_getD (bets : Nat → Nat) :
    ∀ (l : List PredictionOutcome) (i j : Nat), j < l.length →
      ((wdList bets l i).getD j defaultOutcome).totalBets =
        (l.getD j defaultOutcome).totalBets - bets (i + j) := by
  intro l
  induction l with
  | nil => intro i j hj; simp at hj
  | cons o rest ih =>
    intro i j hj
    cases j with
    | zero => simp [wdList]
    | succ j =>
      have hj2 : j < rest.length := by simpa using hj
      have e : i + (j + 1) = i + 1 + j := by omega
      simpa [wdList, e] using ih (i + 1) j hj2

/-- When every stake is covered by its outcome's aggregate, the
`withdrawBet` loop commits: it returns the decremented outcomes and the
caller's total stake over the scanned suffix. -/
theorem withdrawLoop_ok (bets : Nat → Nat) :
    ∀ (l : List PredictionOutcome) (i t : Nat),
      (∀ j, j < l.length → bets (i + j) ≤ (l.getD j defaultOutcome).totalBets) →
      withdrawLoop bets l i t =
        .ok (wdList bets l i,
          t + ((List.range l.length).map (fun j => bets (i + j))).sum) := by
  intro l
  induction l with
  | nil => intro i t h; simp [withdrawLoop, wdList]
  | cons o rest ih =>
    intro i t h
    have h0 : bets i ≤ o.totalBets := by simpa using h 0 (by simp)
    have hrest : ∀ j, j < rest.length →
        bets (i + 1 + j) ≤ (rest.getD j defaultOutcome).totalBets := by
      intro j hj
      have hh := h (j + 1) (by simp; omega)
      have e : i + (j + 1) = i + 1 + j := by omega
      simpa [e] using hh
    have hsum : ((List.range (rest.length + 1)).map (fun j => bets (i + j))).sum =
        bets i + ((List.range rest.length).map (fun j => bets (i + 1 + j))).sum := by
      rw [List.range_succ_eq_map]
      simp only [List.map_cons, List.map_map, List.sum_cons, Nat.add_zero]
      congr 1
      have hmaps : List.map ((fun j => bets (i + j)) ∘ Nat.succ) (List.range rest.length) =
          List.map (fun j => bets (i + 1 + j)) (List.range rest.length) := by
        apply List.map_congr_left
        intro j hj
        simp only [Function.comp]
        congr 1
        omega
      rw [hmaps]
    simp only [withdrawLoop, wdList]
    by_cases hb : 0 < bets i
    · rw [if_pos hb, if_neg (by omega), ih (i + 1) (t + bets i) hrest]
      simp [hsum]
      omega
    · have hb0 : bets i = 0 := by omega
      rw [if_neg hb, ih (i + 1) t hrest]
      cases o with
      | mk nm tb ip vl =>
        simp [hsum, hb0]

/-- C6 amended: provided each outcome's `totalBets` covers the caller's
recorded stake on it and the balance covers the refund (both hold in
every state not distorted by a `removeOutcome` of a staked outcome),
`withdrawBet` succeeds exactly when the pool state is Closed, the pool is
not resolved, and the caller's total stake is positive; on success the
refund is the full total, the caller's per-outcome stakes are zeroed and
each outcome's aggregate is decremented; while the pool state is Open it
always fails with the StateError `"Betting not closed yet."`.  Without the
coverage proviso the success condition is not sufficient: see the
underflow counterexample. -/
theorem withdrawBet_characterization (p : Pool) (sender : Nat)
    (hcons : ∀ i, i < p.outcomes.length →
      (p.bettors sender).bets i ≤ (p.outcomes.getD i defaultOutcome).totalBets)
    (hbal : callerTotalStake p sender ≤ p.balance) :
    (isSuccess (withdrawBet p sender) = true ↔
      (p.state = PoolState.Closed ∧ p.resolved = false ∧
        0 < callerTotalStake p sender)) ∧
    (p.state = PoolState.Open → errOf (withdrawBet p sender) = "Betting not closed yet.") ∧
    (isSuccess (withdrawBet p sender) = true →
      (applyAct p (PoolAct.withdrawBet sender)).balance =
        p.balance - callerTotalStake p sender ∧
      (applyAct p (PoolAct.withdrawBet sender)).outcomes.length = p.outcomes.length ∧
      (∀ i, i < p.outcomes.length →
        ((applyAct p (PoolAct.withdrawBet sender)).bettors sender).bets i = 0) ∧
      (∀ i, i < p.outcomes.length →
        ((applyAct p (PoolAct.withdrawBet sender)).outcomes.getD i defaultOutcome).totalBets =
          (p.outcomes.getD i defaultOutcome).totalBets - (p.bettors sender).bets i) ∧
      ((applyAct p (PoolAct.withdrawBet sender)).bettors sender).claimed =
        (p.bettors sender).claimed ∧
      (applyAct p (PoolAct.withdrawBet sender)).state = p.state) := by
  have hc2 : ∀ j, j < p.outcomes.length →
      (p.bettors sender).bets (0 + j) ≤ (p.outcomes.getD j defaultOutcome).totalBets := by
    intro j hj
    simpa using hcons j hj
  have hloop0 := withdrawLoop_ok (p.bettors sender).bets p.outcomes 0 0 hc2
  have hloop : withdrawLoop (p.bettors sender).bets p.outcomes 0 0 =
      .ok (wdList (p.bettors sender).bets p.outcomes 0, callerTotalStake p sender) := by
    rw [hloop0]
    simp [callerTotalStake]
  have hnb : ¬ p.balance < callerTotalStake p sender := Nat.not_lt.mpr hbal
  refine ⟨?_, ?_, ?_⟩
  · by_cases hst : p.state = PoolState.Closed
    · by_cases hres : p.resolved
      · simp [withdrawBet, isSuccess, hst, hres]
      · by_cases hpos : 0 < callerTotalStake p sender
        · simp [withdrawBet, isSuccess, hst, hres, hloop, hpos, hnb]
        · simp [withdrawBet, isSuccess, hst, hres, hloop, hpos]
    · simp [withdrawBet, isSuccess, hst]
  · intro hopen
    have hst : ¬ p.state = PoolState.Closed := by rw [hopen]; simp
    simp [withdrawBet, errOf, hst]
  · intro hsucc
    by_cases hst : p.state = PoolState.Closed
    · by_cases hres : p.resolved
      · simp [withdrawBet, isSuccess, hst, hres] at hsucc
      · by_cases hpos : 0 < callerTotalStake p sender
        · have happly : applyAct p (PoolAct.withdrawBet sender) = { p with
              outcomes := wdList (p.bettors sender).bets p.outcomes 0
              bettors := fun a =>
                if a = sender then
                  { bets := fun i => if i < p.outcomes.length then 0
                      else (p.bettors sender).bets i
                    claimed := (p.bettors sender).claimed }
                else p.bettors a
              balance := p.balance - callerTotalStake p sender } := by
            simp [applyAct, execAct, withdrawBet, hst, hres, hloop, hpos, hnb]
          refine ⟨?_, ?_, ?_, ?_, ?_, ?_⟩
          · rw [happly]
          · rw [happly]
            simp [wdList_length]
          · intro i hi
            rw [happly]
            simp [hi]
          · intro i hi
            rw [happly]
            have hg := wdList_getD (p.bettors sender).bets p.outcomes 0 i hi
            simpa using hg
          · rw [happly]
            simp
          · rw [happly]
        · simp [withdrawBet, isSuccess, hst, hres, hloop, hpos] at hsucc
    · simp [withdrawBet, isSuccess, hst] at hsucc

/-- C6 witness: in the Closed two-outcome pool where A staked 100 (books
consistent), the characterization instantiates: A's withdrawal succeeds,
and it would fail with the StateError were the pool still Open (shown here
by the successful side of the iff). -/
theorem withdrawBet_characterization_witness :
    isSuccess (withdrawBet (runActs propPool
      [PoolAct.addOutcome 0 "a" 5000 0, PoolAct.addOutcome 0 "b" 5000 1,
       PoolAct.placeBet 1 100 10 0, PoolAct.closeBetting 0 86400]) 1) = true ↔
      ((runActs propPool
        [PoolAct.addOutcome 0 "a" 5000 0, PoolAct.addOutcome 0 "b" 5000 1,
         PoolAct.placeBet 1 100 10 0, PoolAct.closeBetting 0 86400]).state =
          PoolState.Closed ∧
        (runActs propPool
          [PoolAct.addOutcome 0 "a" 5000 0, PoolAct.addOutcome 0 "b" 5000 1,
           PoolAct.placeBet 1 100 10 0, PoolAct.closeBetting 0 86400]).resolved = false ∧
        0 < callerTotalStake (runActs propPool
          [PoolAct.addOutcome 0 "a" 5000 0, PoolAct.addOutcome 0 "b" 5000 1,
           PoolAct.placeBet 1 100 10 0, PoolAct.closeBetting 0 86400]) 1) :=
  (withdrawBet_characterization (runActs propPool
    [PoolAct.addOutcome 0 "a" 5000 0, PoolAct.addOutcome 0 "b" 5000 1,
     PoolAct.placeBet 1 100 10 0, PoolAct.closeBetting 0 86400]) 1
    (by decide) (by decide)).1

/-- Setting entry `i` replaces its contribution to the sum. -/
theorem sum_set_nat (ns : List Nat) :
    ∀ (i x : Nat), i < ns.length → (ns.set i x).sum + ns.getD i 0 = ns.sum + x := by
  induction ns with
  | nil => intro i x hi; simp at hi
  | cons a rest ih =>
    intro i x hi
    cases i with
    | zero => simp; omega
    | succ i =>
      have hh := ih i x (by simpa using hi)
      simp only [List.set_cons_succ, List.sum_cons, List.getD_cons_succ]
      omega

/-- Dropping the last element removes its contribution to the sum. -/
theorem sum_dropLast_add_last (ns : List Nat) :
    ns ≠ [] → ns.dropLast.sum + ns.getD (ns.length - 1) 0 = ns.sum := by
  induction ns with
  | nil => intro h; exact absurd rfl h
  | cons a rest ih =>
    intro _
    cases rest with
    | nil => simp
    | cons b rest2 =>
      have hh := ih (by simp)
      have hlen : (a :: b :: rest2).length - 1 = ((b :: rest2).length - 1) + 1 := by
        simp
      rw [hlen, List.getD_cons_succ, List.dropLast_cons₂, List.sum_cons, List.sum_cons]
      omega

/-- Reading the entry that was just set. -/
theorem getD_set_self_nat (ns : List Nat) :
    ∀ (i x : Nat), i < ns.length → (ns.set i x).getD i 0 = x := by
  induction ns with
  | nil => intro i x hi; simp at hi
  | cons a rest ih =>
    intro i x hi
    cases i with
    | zero => simp
    | succ i => simpa using ih i x (by simpa using hi)

/-- Reading an entry other than the one that was set. -/
theorem getD_set_ne_nat (ns : List Nat) :
    ∀ (i j x : Nat), ¬ i = j → (ns.set i x).getD j 0 = ns.getD j 0 := by
  induction ns with
  | nil => intro i j x _; simp
  | cons a rest ih =>
    intro i j x hij
    cases i with
    | zero =>
      cases j with
      | zero => exact absurd rfl hij
      | succ j => simp
    | succ i =>
      cases j with
      | zero => simp
      | succ j => simpa using ih i j x (by omega)

/-- `map totalBets` commutes with `set`. -/
theorem map_totalBets_set :
    ∀ (l : List PredictionOutcome) (i : Nat) (o : PredictionOutcome),
      (l.set i o).map PredictionOutcome.totalBets =
        (l.map PredictionOutcome.totalBets).set i o.totalBets := by
  intro l
  induction l with
  | nil => intro i o; simp
  | cons a rest ih =>
    intro i o
    cases i with
    | zero => simp
    | succ i => simp [ih]

/-- `map totalBets` commutes with `dropLast`. -/
theorem map_totalBets_dropLast :
    ∀ (l : List PredictionOutcome),
      l.dropLast.map PredictionOutcome.totalBets =
        (l.map PredictionOutcome.totalBets).dropLast := by
  intro l
  induction l with
  | nil => simp
  | cons a rest ih =>
    cases rest with
    | nil => simp
    | cons b rest2 =>
      simp only [List.map_cons]
      rw [List.dropLast_cons₂, List.dropLast_cons₂, List.map_cons, ih]
      simp

/-- `getD` after `map totalBets`, with the matching default values. -/
theorem getD_map_totalBets :
    ∀ (l : List PredictionOutcome) (n : Nat),
      (l.map PredictionOutcome.totalBets).getD n 0 =
        (l.getD n defaultOutcome).totalBets := by
  intro l
  induction l with
  | nil => intro n; simp [defaultOutcome]
  | cons a rest ih =>
    intro n
    cases n with
    | zero => simp
    | succ n => simpa using ih n

/-- Swap-and-pop of an outcome with zero stake keeps the `totalBets` sum. -/
theorem removeAt_sum_zero (l : List PredictionOutcome) (idx : Nat)
    (hidx : idx < l.length) (hz : (l.getD idx defaultOutcome).totalBets = 0) :
    (((l.set idx (l.getD (l.length - 1) defaultOutcome)).dropLast).map
      PredictionOutcome.totalBets).sum = (l.map PredictionOutcome.totalBets).sum := by
  have hlen : (l.map PredictionOutcome.totalBets).length = l.length := by simp
  have hlast : (l.getD (l.length - 1) defaultOutcome).totalBets =
      (l.map PredictionOutcome.totalBets).getD (l.length - 1) 0 :=
    (getD_map_totalBets l (l.length - 1)).symm
  have hidx0 : (l.map PredictionOutcome.totalBets).getD idx 0 = 0 := by
    rw [getD_map_totalBets l idx, hz]
  rw [map_totalBets_dropLast, map_totalBets_set, hlast]
  set ns := l.map PredictionOutcome.totalBets with hns
  set x := ns.getD (l.length - 1) 0 with hx
  have hset_len : (ns.set idx x).length = ns.length := by simp
  have hne2 : ns.set idx x ≠ [] := by
    intro hcon
    rw [hcon] at hset_len
    simp at hset_len
    omega
  have hdrop := sum_dropLast_add_last (ns.set idx x) hne2
  have hsum := sum_set_nat ns idx x (by omega)
  have hgetlast : (ns.set idx x).getD ((ns.set idx x).length - 1) 0 = x := by
    rw [hset_len, hlen]
    by_cases hcase : idx = l.length - 1
    · rw [← hcase]
      exact getD_set_self_nat ns idx x (by omega)
    · rw [getD_set_ne_nat ns idx (l.length - 1) x hcase]
  rw [hgetlast] at hdrop
  omega

/-- `placeBet` success adds the stake to both the balance and the
`totalBets` sum. -/
theorem sum_map_updateAt_add (l : List PredictionOutcome) (v : Nat) :
    ∀ i, i < l.length →
      ((updateAt l i (fun o => { o with totalBets := o.totalBets + v })).map
        PredictionOutcome.totalBets).sum =
      (l.map PredictionOutcome.totalBets).sum + v := by
  induction l with
  | nil => intro i hi; simp at hi
  | cons o rest ih =>
    intro i hi
    cases i with
    | zero => simp [updateAt]; omega
    | succ i =>
      have hh := ih i (by simpa using hi)
      simp only [updateAt, List.map_cons, List.sum_cons, hh]
      omega

/-- Effects of a successful `placeBet` on the accounting quantities. -/
theorem placeBet_ok_effects (p : Pool) (s v n i : Nat) (q : Pool)
    (h : placeBet p s v n i = .ok q) :
    q.balance = p.balance + v ∧ sumTotalBets q = sumTotalBets p + v := by
  by_cases h1 : p.state = PoolState.Open ∧ n < p.deadline
  case neg => simp [placeBet, h1] at h
  by_cases h2 : p.paused
  case pos => simp [placeBet, h1, h2] at h
  by_cases h3 : i < p.outcomes.length
  case neg => simp [placeBet, h1, h2, h3] at h
  by_cases h4 : 0 < v
  case neg => simp [placeBet, h1, h2, h3, h4] at h
  by_cases h5 : 0 < p.maxLimit ∧ p.maxLimit < p.balance + v
  case pos => simp [placeBet, h1, h2, h3, h4, h5] at h
  by_cases h6 : p.hasBettorBetOnOutcome i s <;>
    simp [placeBet, h1, h2, h3, h4, h5, h6] at h <;>
    subst h <;>
    exact ⟨rfl, by simpa [sumTotalBets] using sum_map_updateAt_add p.outcomes v i h3⟩

/-- Effects of a successful `addOutcome`: the new outcome carries no stake. -/
theorem addOutcome_ok_effects (p : Pool) (s : Nat) (nm : String) (pr vl : Nat) (q : Pool)
    (h : addOutcome p s nm pr vl = .ok q) :
    q.balance = p.balance ∧ sumTotalBets q = sumTotalBets p := by
  by_cases h1 : s = p.owner
  case neg => simp [addOutcome, h1] at h
  by_cases h2 : pr ≤ 10000
  case neg => simp [addOutcome, h1, h2] at h
  simp [addOutcome, h1, h2] at h
  subst h
  exact ⟨rfl, by simp [sumTotalBets]⟩

/-- Effects of a successful `removeOutcome` of a stake-free outcome. -/
theorem removeOutcome_ok_effects (p : Pool) (s idx : Nat) (q : Pool)
    (h : removeOutcome p s idx = .ok q)
    (hz : (p.outcomes.getD idx defaultOutcome).totalBets = 0) :
    q.balance = p.balance ∧ sumTotalBets q = sumTotalBets p := by
  by_cases h1 : s = p.owner
  case neg => simp [removeOutcome, h1] at h
  by_cases h2 : idx < p.outcomes.length
  case neg => simp [removeOutcome, h1, h2] at h
  simp [removeOutcome, h1, h2] at h
  subst h
  exact ⟨rfl, by simpa [sumTotalBets] using removeAt_sum_zero p.outcomes idx h2 hz⟩

/-- A successful `resolve` with no attached value and (on the Single path)
a zero entropy fee leaves the balance unchanged. -/
theorem resolve_ok_balance (p : Pool) (s v n w : Nat) (env : ResolveEnv) (q : Pool)
    (h : resolve p s v n w env = .ok q) (hv : v = 0)
    (hf : p.winnerType = WinnerType.Single → p.entropyFee = 0) :
    q.balance = p.balance := by
  subst hv
  simp only [resolve] at h
  split at h
  · cases h
  · split at h
    · cases h
    · split at h
      · cases h
      · split at h
        · split at h
          · cases h
          · have ha := afterResolve_ok _ _ _ h
            cases hw : p.winnerType with
            | Proportional =>
              have := ha.2.2.1 (by simpa using hw)
              simpa using this
            | Single =>
              have := ha.2.2.2 (by simpa using hw)
              have hf0 := hf hw
              simp at this
              omega
        · rename_i hfee
          split at h
          · cases h
          · split at h
            · cases h
            · split at h
              · cases h
              · have ha := afterResolve_ok _ _ _ h
                have hfee0 : env.pythUpdateFee = 0 := by
                  omega
                cases hw : p.winnerType with
                | Proportional =>
                  have := ha.2.2.1 (by simpa using hw)
                  simp [hfee0] at this
                  omega
                | Single =>
                  have := ha.2.2.2 (by simpa using hw)
                  have hf0 := hf hw
                  simp [hfee0] at this
                  omega
        · split at h
          · cases h
          · have ha := afterResolve_ok _ _ _ h
            cases hw : p.winnerType with
            | Proportional =>
              have := ha.2.2.1 (by simpa using hw)
              simpa using this
            | Single =>
              have := ha.2.2.2 (by simpa using hw)
              have hf0 := hf hw
              simp at this
              omega

/-- A successful `closeBetting` only rewrites the state field. -/
theorem closeBetting_ok_effects (p : Pool) (s n : Nat) (q : Pool)
    (h : closeBetting p s n = .ok q) :
    q.balance = p.balance ∧ q.outcomes = p.outcomes := by
  simp only [closeBetting] at h
  split at h
  · cases h
  · split at h
    · cases h
    · split at h
      · cases h
      · cases h
        exact ⟨rfl, rfl⟩

/-- A successful `extendDeadline` only rewrites the deadline. -/
theorem extendDeadline_ok_effects (p : Pool) (s n d : Nat) (q : Pool)
    (h : extendDeadline p s n d = .ok q) :
    q.balance = p.balance ∧ q.outcomes = p.outcomes := by
  simp only [extendDeadline] at h
  split at h
  · cases h
  · split at h
    · cases h
    · cases h
      exact ⟨rfl, rfl⟩

/-- A successful `togglePause` only flips the paused flag. -/
theorem togglePause_ok_effects (p : Pool) (s : Nat) (q : Pool)
    (h : togglePause p s = .ok q) :
    q.balance = p.balance ∧ q.outcomes = p.outcomes := by
  simp only [togglePause] at h
  split at h
  · cases h
  · cases h
    exact ⟨rfl, rfl⟩

/-- A successful `entropyCallback` stores the random value and finalises,
touching neither the balance nor the outcomes. -/
theorem entropyCallback_ok_effects (p : Pool) (seq provider r : Nat) (q : Pool)
    (h : entropyCallback p seq provider r = .ok q) :
    q.balance = p.balance ∧ q.outcomes = p.outcomes := by
  simp only [entropyCallback] at h
  split at h
  · cases h
  · split at h
    · cases h
    · split at h
      · cases h
      · split at h
        · cases h
        · cases h
          exact ⟨rfl, rfl⟩

/-- A committed transaction's post-state, read off `applyAct`. -/
theorem applyAct_ok (p : Pool) (a : PoolAct) (q : Pool) (h : execAct p a = .ok q) :
    applyAct p a = q := by
  simp [applyAct, h]

/-- A reverted transaction leaves `applyAct` at the pre-state. -/
theorem applyAct_error (p : Pool) (a : PoolAct) (e : String)
    (h : execAct p a = .error e) : applyAct p a = p := by
  simp [applyAct, h]

/-- One clean transaction preserves `balance = sum of totalBets`. -/
theorem cleanAct_preserves_inv (p : Pool) (a : PoolAct)
    (hinv : p.balance = sumTotalBets p) (hclean : cleanAct p a = true) :
    (applyAct p a).balance = sumTotalBets (applyAct p a) := by
  cases a with
  | placeBet s v n i =>
    cases h : execAct p (PoolAct.placeBet s v n i) with
    | error e => rw [applyAct_error _ _ _ h]; exact hinv
    | ok q =>
      rw [applyAct_ok _ _ _ h]
      have he := placeBet_ok_effects p s v n i q h
      rw [he.1, he.2, hinv]
  | withdrawBet s => simp [cleanAct] at hclean
  | claimWinnings s => simp [cleanAct] at hclean
  | closeBetting s n =>
    cases h : execAct p (PoolAct.closeBetting s n) with
    | error e => rw [applyAct_error _ _ _ h]; exact hinv
    | ok q =>
      rw [applyAct_ok _ _ _ h]
      have he := closeBetting_ok_effects p s n q h
      rw [he.1, hinv]
      unfold sumTotalBets
      rw [he.2]
  | addOutcome s nm pr vl =>
    cases h : execAct p (PoolAct.addOutcome s nm pr vl) with
    | error e => rw [applyAct_error _ _ _ h]; exact hinv
    | ok q =>
      rw [applyAct_ok _ _ _ h]
      have he := addOutcome_ok_effects p s nm pr vl q h
      rw [he.1, he.2, hinv]
  | removeOutcome s idx =>
    cases h : execAct p (PoolAct.removeOutcome s idx) with
    | error e => rw [applyAct_error _ _ _ h]; exact hinv
    | ok q =>
      rw [applyAct_ok _ _ _ h]
      have hz : (p.outcomes.getD idx defaultOutcome).totalBets = 0 := by
        simpa [cleanAct] using hclean
      have he := removeOutcome_ok_effects p s idx q h hz
      rw [he.1, he.2, hinv]
  | extendDeadline s n d =>
    cases h : execAct p (PoolAct.extendDeadline s n d) with
    | error e => rw [applyAct_error _ _ _ h]; exact hinv
    | ok q =>
      rw [applyAct_ok _ _ _ h]
      have he := extendDeadline_ok_effects p s n d q h
      rw [he.1, hinv]
      unfold sumTotalBets
      rw [he.2]
  | togglePause s =>
    cases h : execAct p (PoolAct.togglePause s) with
    | error e => rw [applyAct_error _ _ _ h]; exact hinv
    | ok q =>
      rw [applyAct_ok _ _ _ h]
      have he := togglePause_ok_effects p s q h
      rw [he.1, hinv]
      unfold sumTotalBets
      rw [he.2]
  | resolve s v n w env =>
    cases h : execAct p (PoolAct.resolve s v n w env) with
    | error e => rw [applyAct_error _ _ _ h]; exact hinv
    | ok q =>
      rw [applyAct_ok _ _ _ h]
      have hcc : v = 0 ∧ (p.winnerType = WinnerType.Single → p.entropyFee = 0) := by
        simp [cleanAct, Bool.and_eq_true, Bool.or_eq_true, Bool.not_eq_true'] at hclean
        constructor
        · exact hclean.1
        · intro hw
          rcases hclean.2 with hne | hfe
          · exact absurd hw hne
          · exact hfe
      have hb := resolve_ok_balance p s v n w env q h hcc.1 hcc.2
      have ho := resolve_ok_outcomes p s v n w env q h
      rw [hb, hinv]
      unfold sumTotalBets
      rw [ho]
  | entropyCallback seq provider r =>
    cases h : execAct p (PoolAct.entropyCallback seq provider r) with
    | error e => rw [applyAct_error _ _ _ h]; exact hinv
    | ok q =>
      rw [applyAct_ok _ _ _ h]
      have he := entropyCallback_ok_effects p seq provider r q h
      rw [he.1, hinv]
      unfold sumTotalBets
      rw [he.2]

/-- The invariant is preserved along any clean trace. -/
theorem cleanRun_preserves_inv :
    ∀ (acts : List PoolAct) (p : Pool),
      p.balance = sumTotalBets p → cleanRun p acts = true →
      (runActs p acts).balance = sumTotalBets (runActs p acts) := by
  intro acts
  induction acts with
  | nil => intro p h _; exact h
  | cons a rest ih =>
    intro p h hc
    have hc2 : cleanAct p a = true ∧ cleanRun (applyAct p a) rest = true := by
      simpa [cleanRun, Bool.and_eq_true] using hc
    exact ih (applyAct p a) (cleanAct_preserves_inv p a h hc2.1) hc2.2

/-- C1 amended: starting from a fresh pool, the held balance equals the sum
of the outcomes' `totalBets` after any sequence of transactions that
contains no claim or withdraw, removes only stake-free outcomes, attaches
no value to `resolve`, and pays no entropy fee on the Single path (failing
transactions are harmless no-ops).  The unrestricted claim fails: a
positive Single-path entropy fee is paid out of the balance, and removing
a staked outcome drops its stake from the sum — see the counterexample. -/
theorem clean_trace_balance_eq_sumTotalBets
    (owner maxLimit now dur provider fee : Nat)
    (wt : WinnerType) (st : SettlementType) (acts : List PoolAct)
    (hclean : cleanRun (mkPool owner maxLimit now dur wt st provider fee) acts = true) :
    (runActs (mkPool owner maxLimit now dur wt st provider fee) acts).balance =
      sumTotalBets (runActs (mkPool owner maxLimit now dur wt st provider fee) acts) := by
  apply cleanRun_preserves_inv
  · simp [mkPool, sumTotalBets]
  · exact hclean

/-- C1 witness: the Single-policy zero-fee trace through Resolving (two
admin calls, a bet, a close and a resolve) is clean, and the resulting
balance (100) equals the `totalBets` sum. -/
theorem clean_trace_balance_eq_sumTotalBets_witness :
    (runActs (mkPool 0 0 0 1 WinnerType.Single SettlementType.Wallet 7 0)
      actsResolving).balance =
      sumTotalBets (runActs (mkPool 0 0 0 1 WinnerType.Single SettlementType.Wallet 7 0)
        actsResolving) :=
  clean_trace_balance_eq_sumTotalBets 0 0 0 1 7 0 WinnerType.Single SettlementType.Wallet
    actsResolving (by decide)
